import Mathlib

/-!
Verification of the py-evm service/cancellation framework (`p2p/service.py`)
and the ECMUL precompile (`evm/precompiles/ecmul.py`) against their
natural-language specification.

The `P2P` namespace embeds the service lifecycle.  `p2p/cancel_token.py` is
not part of the sources, so the cancellation token is modelled from the
spec's description of it (own monotonic triggered bit plus borrowed parent
references, `triggered` = OR over the whole ancestor chain).  Mutable Python
state is made explicit: token bits live in a store `Nat → Bool`, service
instances live in a `World`.
-/

set_option autoImplicit false

namespace P2P

/-- Modelled from the spec: `p2p/cancel_token.py` is absent from the sources.
A `CancelTok` is "name (diagnostic only), own triggered bit (monotonic
false→true), optional reference to a parent token chain (borrowed)".  The own
bit is an index `ownId` into a mutable store `Nat → Bool`; parents are
borrowed references to other tokens. -/
inductive CancelTok : Type where
  | node (name : String) (ownId : Nat) (parents : List CancelTok)

/-- Diagnostic name of a token. -/
def CancelTok.name : CancelTok → String
  | .node n _ _ => n

/-- Index of the token's own triggered bit in the store. -/
def CancelTok.ownId : CancelTok → Nat
  | .node _ i _ => i

mutual

/-- Modelled from the spec: "`triggered` — read-only query, OR over the whole
ancestor chain": the own bit ORed with every parent's `triggered`. -/
def CancelTok.triggered (s : Nat → Bool) : CancelTok → Bool
  | .node _ i ps => s i || anyTriggered s ps

/-- OR of `triggered` over a list of parent tokens. -/
def anyTriggered (s : Nat → Bool) : List CancelTok → Bool
  | [] => false
  | p :: ps => p.triggered s || anyTriggered s ps

end

mutual

/-- All bit indices reachable from a token: its own bit and every ancestor's. -/
def CancelTok.ids : CancelTok → List Nat
  | .node _ i ps => i :: idsList ps

/-- Bit indices reachable from a list of tokens. -/
def idsList : List CancelTok → List Nat
  | [] => []
  | p :: ps => p.ids ++ idsList ps

end

/-- Modelled from the spec: "`trigger()` — idempotently sets this token's own
bit"; only the own bit changes, ancestors are untouched. -/
def CancelTok.trigger (s : Nat → Bool) (t : CancelTok) : Nat → Bool :=
  fun j => if j = t.ownId then true else s j

/-- Modelled from the spec: "`chain(parent)` — returns a composed view whose
triggered state is the OR of this token and `parent`'s chain; does not mutate
either input".  The composed view is a fresh token (own bit `freshId`,
initially untriggered) holding borrowed references to both inputs. -/
def CancelTok.chain (a b : CancelTok) (freshId : Nat) : CancelTok :=
  .node (a.name ++ ":" ++ b.name) freshId [a, b]

mutual

theorem triggered_eq_any_ids (s : Nat → Bool) (t : CancelTok) :
    t.triggered s = t.ids.any s := by
  cases t with
  | node n i ps =>
    simp only [CancelTok.triggered, CancelTok.ids, List.any_cons]
    rw [anyTriggered_eq_any_idsList]

theorem anyTriggered_eq_any_idsList (s : Nat → Bool) (ps : List CancelTok) :
    anyTriggered s ps = (idsList ps).any s := by
  cases ps with
  | nil => rfl
  | cons p ps =>
    simp only [anyTriggered, idsList, List.any_append]
    rw [triggered_eq_any_ids, anyTriggered_eq_any_idsList]

end

theorem triggered_trigger_self (s : Nat → Bool) (t : CancelTok) :
    t.triggered (t.trigger s) = true := by
  cases t with
  | node n i ps =>
    simp [CancelTok.triggered, CancelTok.trigger, CancelTok.ownId]

theorem any_trigger_of_not_mem (s : Nat → Bool) (a : CancelTok) (l : List Nat)
    (h : a.ownId ∉ l) : l.any (a.trigger s) = l.any s := by
  induction l with
  | nil => rfl
  | cons j js ih =>
    simp only [List.mem_cons, not_or] at h
    simp only [List.any_cons, ih h.2]
    have hj : ¬ j = a.ownId := fun hc => h.1 hc.symm
    simp [CancelTok.trigger, hj]

theorem triggered_trigger_of_not_mem (s : Nat → Bool) (a t : CancelTok)
    (h : a.ownId ∉ t.ids) : t.triggered (a.trigger s) = t.triggered s := by
  rw [triggered_eq_any_ids, triggered_eq_any_ids, any_trigger_of_not_mem s a t.ids h]

theorem chain_triggered (s : Nat → Bool) (a b : CancelTok) (f : Nat) (hf : s f = false) :
    (a.chain b f).triggered s = (a.triggered s || b.triggered s) := by
  simp [CancelTok.chain, CancelTok.triggered, anyTriggered, hf]

/-- Iterated chaining: fold `chain` over a list of (token, fresh id) pairs,
expressing composition "to arbitrary depth". -/
def chainMany (t : CancelTok) : List (CancelTok × Nat) → CancelTok
  | [] => t
  | (p, f) :: rest => chainMany (t.chain p f) rest

theorem chainMany_triggered (s : Nat → Bool) (t : CancelTok)
    (l : List (CancelTok × Nat)) (hl : ∀ pf ∈ l, s pf.2 = false) :
    (chainMany t l).triggered s = (t.triggered s || l.any fun pf => pf.1.triggered s) := by
  induction l generalizing t with
  | nil => simp [chainMany]
  | cons pf rest ih =>
    obtain ⟨p, f⟩ := pf
    have hf : s f = false := hl (p, f) (List.mem_cons_self _ _)
    have hrest : ∀ pf ∈ rest, s pf.2 = false := fun q hq => hl q (List.mem_cons_of_mem _ hq)
    simp only [chainMany, List.any_cons]
    rw [ih (t.chain p f) hrest, chain_triggered s t p f hf, Bool.or_assoc]

/-- C9: chaining law.  For tokens `A`, `B` and a composed view
`C = A.chain(B)` (fresh own bit untriggered): `C.triggered` is the OR of
`A.triggered` and `B.triggered`; triggering `A` alone makes `C.triggered`
true while leaving `B` untriggered (`chain` itself is a pure constructor: it
holds `A` and `B` as borrowed parents and touches no store bit); and
composition is transitive to arbitrary depth, the triggered state of an
iterated chain being the OR over all members. -/
theorem chain_law (s : Nat → Bool) (a b : CancelTok) (f : Nat)
    (hf : s f = false) (hmem : a.ownId ∉ b.ids) (hb : b.triggered s = false)
    (l : List (CancelTok × Nat)) (hl : ∀ pf ∈ l, s pf.2 = false) :
    (a.chain b f).triggered s = (a.triggered s || b.triggered s)
    ∧ (a.chain b f).triggered (a.trigger s) = true
    ∧ b.triggered (a.trigger s) = false
    ∧ (chainMany (a.chain b f) l).triggered s
        = (a.triggered s || b.triggered s || l.any fun pf => pf.1.triggered s) := by
  refine ⟨chain_triggered s a b f hf, ?_, ?_, ?_⟩
  · simp [CancelTok.chain, CancelTok.triggered, anyTriggered, triggered_trigger_self]
  · rw [triggered_trigger_of_not_mem s a b hmem, hb]
  · rw [chainMany_triggered s _ l hl, chain_triggered s a b f hf]

/-- Sample token with own bit 0. -/
def tokA : CancelTok := .node "A" 0 []

/-- Sample token with own bit 1. -/
def tokB : CancelTok := .node "B" 1 []

/-- Sample token with own bit 3. -/
def tokC : CancelTok := .node "C" 3 []

/-- Store with every bit untriggered. -/
def storeEmpty : Nat → Bool := fun _ => false

/-- Witness for `chain_law` at concrete tokens `A`, `B`, `C`. -/
theorem chain_law_witness :
    (tokA.chain tokB 2).triggered storeEmpty
        = (tokA.triggered storeEmpty || tokB.triggered storeEmpty)
    ∧ (tokA.chain tokB 2).triggered (tokA.trigger storeEmpty) = true
    ∧ tokB.triggered (tokA.trigger storeEmpty) = false
    ∧ (chainMany (tokA.chain tokB 2) [(tokC, 4)]).triggered storeEmpty
        = (tokA.triggered storeEmpty || tokB.triggered storeEmpty
            || [(tokC, 4)].any fun pf => pf.1.triggered storeEmpty) :=
  chain_law storeEmpty tokA tokB 2 rfl (by decide) rfl [(tokC, 4)] (by decide)

/-- Per-instance state of a `BaseService`, as set up by
`BaseService.__init__` (`p2p/service.py`): an `asyncio.Lock` run-lock, an
`asyncio.Event` `cleaned_up`, and the instance's `cancel_token`. -/
structure ServiceState where
  runLockLocked : Bool
  cleanedUp : Bool
  cancelToken : CancelTok

/-- Mutable state shared by all `BaseService` instances.  `tokenStore` holds
every token's own triggered bit.  Crucially, `_child_services` in
`p2p/service.py` is declared as a CLASS-level attribute
(`_child_services: List['BaseService'] = []`), so the class-level list is one
field `classChildServices`, while `instChildServices` records a per-instance
`_child_services` attribute when (and only when) one has been assigned on
that instance — which `__init__` never does. -/
structure World where
  tokenStore : Nat → Bool
  classChildServices : List Nat
  instChildServices : Nat → Option (List Nat)
  services : Nat → Option ServiceState

/-- Python attribute lookup for `self._child_services`: the instance
attribute if one was ever assigned, otherwise the class attribute. -/
def childServicesOf (w : World) (sid : Nat) : List Nat :=
  (w.instChildServices sid).getD w.classChildServices

/-- `BaseService.__init__`: allocates a fresh unlocked run-lock and unset
`cleaned_up` event, creates `base_token = CancelToken(type(self).__name__)`
(own bit `baseId`, fresh and untriggered), and sets `cancel_token` to
`base_token` when no token was passed, else to `base_token.chain(token)`
(fresh own bit `chainId`).  It does NOT assign `self._child_services`. -/
def initService (w : World) (sid : Nat) (name : String) (baseId chainId : Nat)
    (token : Option CancelTok) : World :=
  let base : CancelTok := .node name baseId []
  let ct := match token with
    | none => base
    | some t => base.chain t chainId
  { w with services := fun j =>
      if j = sid then
        some { runLockLocked := false, cleanedUp := false, cancelToken := ct }
      else w.services j }

/-- `BaseService.run_child_service`: `self._child_services.append(child)` —
the attribute lookup finds the instance attribute if assigned, otherwise the
class-level list, and mutates THAT list in place.  (The returned
`ensure_future(child_service.run())` schedules the child's `run`, modelled
separately by `run`.) -/
def run_child_service (w : World) (sid cid : Nat) : World :=
  match w.instChildServices sid with
  | some l => { w with instChildServices := fun j =>
      if j = sid then some (l ++ [cid]) else w.instChildServices j }
  | none => { w with classChildServices := w.classChildServices ++ [cid] }

/-- State effect of `BaseService.cleanup`: awaits every registered child's
`cleaned_up` and the service's own `_cleanup()`, then sets `cleaned_up`.
(The timing of the fan-in is modelled by `cleanupSetTime` below.) -/
def cleanup (w : World) (sid : Nat) : World :=
  match w.services sid with
  | none => w
  | some st =>
    { w with services := fun j =>
        if j = sid then
          some { st with cleanedUp := true }
        else w.services j }

/-- Behaviour of the subclass-supplied `_run()` coroutine as observed by
`run`: return normally, raise `OperationCancelled`, or raise any other
exception. -/
inductive RunOutcome : Type where
  | normal
  | opCancelled
  | fault

/-- Log record produced by `run`'s `except` clauses. -/
inductive RunLog : Type where
  | quiet
  | infoFinished
  | errorUnexpected
deriving DecidableEq

/-- Everything `BaseService.run` does, made observable: the exception it
raises to its caller (if any), whether `_run()` was executed and whether the
run-lock was held while it ran, the log record, the argument passed to
`finished_callback` (if invoked), and the final world. -/
structure RunResult where
  error : Option String
  ranWork : Bool
  lockedDuringWork : Bool
  logged : RunLog
  callbackArg : Option Nat
  world : World

/-- `BaseService.run`: raises `RuntimeError` if `is_running` (run-lock held)
or if `cancel_token.triggered`; otherwise runs `_run()` under the run-lock
(`async with self._run_lock`), catches `OperationCancelled` (info log) and
any other `Exception` (error log), and in the `finally` block triggers
`cancel_token`, awaits `cleanup()`, and invokes `finished_callback(self)`
when one was passed.  `outcome` is what `_run()` did; `hasCallback` is
whether a `finished_callback` was supplied. -/
def run (w : World) (sid : Nat) (outcome : RunOutcome) (hasCallback : Bool) : RunResult :=
  match w.services sid with
  | none =>
    { error := some "no such service", ranWork := false, lockedDuringWork := false,
      logged := .quiet, callbackArg := none, world := w }
  | some st =>
    if st.runLockLocked then
      { error := some "Cannot start the service while it is already running",
        ranWork := false, lockedDuringWork := false, logged := .quiet,
        callbackArg := none, world := w }
    else if st.cancelToken.triggered w.tokenStore then
      { error := some "Cannot restart a service that has already been cancelled",
        ranWork := false, lockedDuringWork := false, logged := .quiet,
        callbackArg := none, world := w }
    else
      let logged : RunLog := match outcome with
        | .normal => .quiet
        | .opCancelled => .infoFinished
        | .fault => .errorUnexpected
      let w1 := { w with tokenStore := st.cancelToken.trigger w.tokenStore }
      let w2 := cleanup w1 sid
      { error := none, ranWork := true, lockedDuringWork := true, logged := logged,
        callbackArg := if hasCallback then some sid else none, world := w2 }

/-- `BaseService._wait_until_finished_timeout = 5`: number of seconds
`cancel()` will wait for `run()` to finish. -/
def waitUntilFinishedTimeout : Nat := 5

/-- Everything `BaseService.cancel` does, made observable: the exception it
raises (if any), whether it logged the already-cancelled warning, whether
its grace wait timed out, the time at which it returns, and the final
world. -/
structure CancelResult where
  error : Option String
  loggedAlready : Bool
  timedOut : Bool
  returnTime : Nat
  world : World

/-- `BaseService.cancel`: if `cancel_token.triggered`, logs a warning and
returns; else if not `is_running`, raises `RuntimeError`; otherwise triggers
`cancel_token` and awaits `cleaned_up.wait()` under
`asyncio.wait_for(..., timeout=_wait_until_finished_timeout)`, logging and
returning anyway on `TimeoutError`.  `cleanedUpResolvesAt` is the time at
which the service's `cleaned_up` event resolves (`none` if it never
does). -/
def cancel (w : World) (sid : Nat) (cleanedUpResolvesAt : Option Nat) : CancelResult :=
  match w.services sid with
  | none =>
    { error := some "no such service", loggedAlready := false, timedOut := false,
      returnTime := 0, world := w }
  | some st =>
    if st.cancelToken.triggered w.tokenStore then
      { error := none, loggedAlready := true, timedOut := false,
        returnTime := 0, world := w }
    else if st.runLockLocked = false then
      { error := some "Cannot cancel a service that has not been started",
        loggedAlready := false, timedOut := false, returnTime := 0, world := w }
    else
      let w1 := { w with tokenStore := st.cancelToken.trigger w.tokenStore }
      match cleanedUpResolvesAt with
      | some t =>
        if t ≤ waitUntilFinishedTimeout then
          { error := none, loggedAlready := false, timedOut := false,
            returnTime := t, world := w1 }
        else
          { error := none, loggedAlready := false, timedOut := true,
            returnTime := waitUntilFinishedTimeout, world := w1 }
      | none =>
        { error := none, loggedAlready := false, timedOut := true,
          returnTime := waitUntilFinishedTimeout, world := w1 }

/-- Completion time of `asyncio.gather(own, ts…)`: the gather finishes when
the last of the gathered awaitables finishes. -/
def gatherDoneTime (own : Nat) (ts : List Nat) : Nat := ts.foldr max own

/-- Timing of `BaseService.cleanup`: `asyncio.gather` of
`child_service.cleaned_up.wait()` for every child in `self._child_services`
together with `self._cleanup()`; `self.cleaned_up.set()` happens when the
gather completes.  `childCleanedUpAt c` is the time child `c`'s `cleaned_up`
resolves, `ownCleanupDoneAt` the time `_cleanup()` returns. -/
def cleanupSetTime (w : World) (sid : Nat) (childCleanedUpAt : Nat → Nat)
    (ownCleanupDoneAt : Nat) : Nat :=
  gatherDoneTime ownCleanupDoneAt ((childServicesOf w sid).map childCleanedUpAt)

/-- Observed value of the `cleaned_up` event at time `t`: unset before the
set point, set from it onwards (an `asyncio.Event` is never cleared by this
code). -/
def cleanedUpAtTime (w : World) (sid : Nat) (childCleanedUpAt : Nat → Nat)
    (ownCleanupDoneAt : Nat) (t : Nat) : Bool :=
  decide (cleanupSetTime w sid childCleanedUpAt ownCleanupDoneAt ≤ t)

theorem le_gatherDoneTime_own (own : Nat) (ts : List Nat) :
    own ≤ gatherDoneTime own ts := by
  induction ts with
  | nil => exact Nat.le_refl own
  | cons t ts ih => exact Nat.le_trans ih (Nat.le_max_right t _)

theorem le_gatherDoneTime_mem (own : Nat) (ts : List Nat) (x : Nat) (hx : x ∈ ts) :
    x ≤ gatherDoneTime own ts := by
  induction ts with
  | nil => cases hx
  | cons t ts ih =>
    rcases List.mem_cons.mp hx with h | h
    · subst h; exact Nat.le_max_left _ _
    · exact Nat.le_trans (ih h) (Nat.le_max_right t _)

/-- C4: fan-in law.  For any service, any set of registered children and any
finishing order (any assignment of completion times to the children's
`cleaned_up` events and to the service's own `_cleanup()`), the `cleaned_up`
signal is set no earlier than the service's own teardown completion and no
earlier than every registered child's `cleaned_up` resolution; and the
observed event has a single false→true transition, at exactly the set
point — it is set exactly once. -/
theorem cleanup_fan_in (w : World) (sid : Nat) (childCleanedUpAt : Nat → Nat)
    (ownCleanupDoneAt : Nat) :
    ownCleanupDoneAt ≤ cleanupSetTime w sid childCleanedUpAt ownCleanupDoneAt
    ∧ (∀ c ∈ childServicesOf w sid,
        childCleanedUpAt c ≤ cleanupSetTime w sid childCleanedUpAt ownCleanupDoneAt)
    ∧ ∀ t, cleanedUpAtTime w sid childCleanedUpAt ownCleanupDoneAt t = true
        ↔ cleanupSetTime w sid childCleanedUpAt ownCleanupDoneAt ≤ t := by
  refine ⟨le_gatherDoneTime_own _ _, fun c hc => ?_, fun t => ?_⟩
  · exact le_gatherDoneTime_mem _ _ _ (List.mem_map_of_mem childCleanedUpAt hc)
  · exact decide_eq_true_iff

/-- Fresh world: no token bit triggered, empty class-level `_child_services`
list, no instance attributes assigned, no services constructed. -/
def freshWorld : World :=
  { tokenStore := fun _ => false
    classChildServices := []
    instChildServices := fun _ => none
    services := fun _ => none }

/-- Two freshly constructed services (ids 1 and 2), then child 99 registered
on service 1 via `run_child_service`. -/
def sharedListWorld : World :=
  run_child_service
    (initService (initService freshWorld 1 "s1" 10 11 none) 2 "s2" 12 13 none) 1 99

/-- C1 (refuted on the code): `_child_services` is a class-level mutable
default that `__init__` never re-allocates per instance, so the child
registered on service 1 appears in service 2's child list and is waited on
in service 2's cleanup fan-in (here child 99's `cleaned_up` at time 7
dominates service 2's set point). -/
theorem c1_shared_child_list :
    childServicesOf sharedListWorld 2 = [99]
    ∧ cleanupSetTime sharedListWorld 2 (fun c => if c = 99 then 7 else 0) 0 = 7 := by
  exact ⟨rfl, rfl⟩

/-- Witness world for `run`: one freshly constructed service with id 1. -/
def w0 : World := initService freshWorld 1 "runsvc" 20 21 none

/-- State of the service in `w0`. -/
def st0 : ServiceState :=
  { runLockLocked := false, cleanedUp := false, cancelToken := .node "runsvc" 20 [] }

/-- C2: `run` raises a ContractViolation without executing the work routine
iff the service is already running (run-lock held) or its cancel token is
already triggered; otherwise it executes `_run()` under the run-lock. -/
theorem run_contract (w : World) (sid : Nat) (st : ServiceState)
    (hs : w.services sid = some st) (outcome : RunOutcome) (hasCallback : Bool) :
    ((run w sid outcome hasCallback).error.isSome
        ↔ (st.runLockLocked || st.cancelToken.triggered w.tokenStore) = true)
    ∧ ((run w sid outcome hasCallback).error.isSome →
        (run w sid outcome hasCallback).ranWork = false)
    ∧ ((run w sid outcome hasCallback).error = none →
        (run w sid outcome hasCallback).ranWork = true
        ∧ (run w sid outcome hasCallback).lockedDuringWork = true) := by
  cases h1 : st.runLockLocked <;> cases h2 : st.cancelToken.triggered w.tokenStore <;>
    simp [run, hs, h1, h2]

/-- Witness for `run_contract` on the freshly constructed service of `w0`. -/
theorem run_contract_witness :
    (run w0 1 .normal true).error.isSome
      ↔ (st0.runLockLocked || st0.cancelToken.triggered w0.tokenStore) = true :=
  (run_contract w0 1 st0 rfl .normal true).1

/-- C3: once `run`'s preconditions passed, whatever `_run()` does (normal
return, `OperationCancelled`, or any other fault), `run` raises nothing to
its caller, triggers the service's own cancel token, performs cleanup
(`cleaned_up` set), and invokes the optional completion callback with the
service itself. -/
theorem run_always_cleans_up (w : World) (sid : Nat) (st : ServiceState)
    (hs : w.services sid = some st) (outcome : RunOutcome) (hasCallback : Bool)
    (hlock : st.runLockLocked = false)
    (htrig : st.cancelToken.triggered w.tokenStore = false) :
    (run w sid outcome hasCallback).error = none
    ∧ st.cancelToken.triggered (run w sid outcome hasCallback).world.tokenStore = true
    ∧ (run w sid outcome hasCallback).world.services sid
        = some { st with cleanedUp := true }
    ∧ (run w sid outcome hasCallback).callbackArg
        = (if hasCallback then some sid else none) := by
  simp [run, hs, hlock, htrig, cleanup, triggered_trigger_self]

/-- Witness for `run_always_cleans_up` on the freshly constructed service of
`w0`, for the faulting work routine. -/
theorem run_always_cleans_up_witness :
    (run w0 1 .fault true).error = none
    ∧ st0.cancelToken.triggered (run w0 1 .fault true).world.tokenStore = true :=
  ⟨(run_always_cleans_up w0 1 st0 rfl .fault true rfl rfl).1,
   (run_always_cleans_up w0 1 st0 rfl .fault true rfl rfl).2.1⟩

/-- A parent token whose own bit (40) is triggered in `preTriggeredWorld`. -/
def parentTok : CancelTok := .node "parent" 40 []

/-- World holding one service (id 1) constructed with the already-triggered
parent token `parentTok`; `run` was never called on it. -/
def preTriggeredWorld : World :=
  initService { freshWorld with tokenStore := fun j => decide (j = 40) }
    1 "svc" 41 42 (some parentTok)

/-- C5 counterexample: a service constructed with an already-triggered
parent token, on which `run` was never called; `cancel` takes the
already-triggered branch first, logs a warning and returns WITHOUT raising a
ContractViolation — refuting the claim that `cancel` before any `run` always
raises. -/
theorem c5_cancel_never_run_no_raise :
    (cancel preTriggeredWorld 1 none).error = none
    ∧ (cancel preTriggeredWorld 1 none).loggedAlready = true := by
  exact ⟨rfl, rfl⟩

/-- C5 (amended): for every service on which `run` was never called AND
whose cancel token is not already triggered, `cancel` raises a
ContractViolation. -/
theorem cancel_before_run_raises (w : World) (sid : Nat) (st : ServiceState)
    (x : Option Nat) (hs : w.services sid = some st)
    (hlock : st.runLockLocked = false)
    (htrig : st.cancelToken.triggered w.tokenStore = false) :
    (cancel w sid x).error = some "Cannot cancel a service that has not been started" := by
  simp [cancel, hs, htrig, hlock]

/-- Witness for `cancel_before_run_raises` on the freshly constructed
service of `w0`. -/
theorem cancel_before_run_raises_witness :
    (cancel w0 1 none).error = some "Cannot cancel a service that has not been started" :=
  cancel_before_run_raises w0 1 st0 none rfl rfl rfl

/-- C6: `cancel` is idempotent — on a service whose cancel token is already
triggered it only logs the warning and returns, raising nothing and leaving
the whole world (token store, `cleaned_up`, child lists) unchanged. -/
theorem cancel_idempotent (w : World) (sid : Nat) (st : ServiceState)
    (x : Option Nat) (hs : w.services sid = some st)
    (htrig : st.cancelToken.triggered w.tokenStore = true) :
    (cancel w sid x).error = none
    ∧ (cancel w sid x).loggedAlready = true
    ∧ (cancel w sid x).world = w := by
  simp [cancel, hs, htrig]

/-- Witness for `cancel_idempotent` on the pre-triggered service of
`preTriggeredWorld`. -/
theorem cancel_idempotent_witness :
    (cancel preTriggeredWorld 1 (some 2)).error = none
    ∧ (cancel preTriggeredWorld 1 (some 2)).loggedAlready = true
    ∧ (cancel preTriggeredWorld 1 (some 2)).world = preTriggeredWorld :=
  cancel_idempotent preTriggeredWorld 1
    ⟨false, false, CancelTok.chain (.node "svc" 41 []) parentTok 42⟩ (some 2) rfl rfl

/-- State of a started service: run-lock held, `cleaned_up` unset, own
token with bit 60. -/
def runningSvc : ServiceState :=
  { runLockLocked := true, cleanedUp := false, cancelToken := .node "svc" 60 [] }

/-- A world holding one started service (id 1, run-lock held, token
untriggered), as it is while `run` is executing `_run()`. -/
def runningWorld : World :=
  { freshWorld with services := fun j => if j = 1 then some runningSvc else none }

/-- C7: on a started service with an untriggered token, `cancel` triggers
the token, then waits for `cleaned_up` at most the bounded grace period
`_wait_until_finished_timeout`: if `cleaned_up` resolves within the grace
period `cancel` returns at that moment without a timeout, otherwise it logs
the timeout and returns at the grace period's end — in both cases raising
nothing and leaving every service's state (run-lock, `cleaned_up`) intact,
i.e. not forcing the underlying task to terminate. -/
theorem cancel_graceful (w : World) (sid : Nat) (st : ServiceState)
    (x : Option Nat) (hs : w.services sid = some st)
    (hlock : st.runLockLocked = true)
    (htrig : st.cancelToken.triggered w.tokenStore = false) :
    (cancel w sid x).error = none
    ∧ st.cancelToken.triggered (cancel w sid x).world.tokenStore = true
    ∧ (cancel w sid x).returnTime ≤ waitUntilFinishedTimeout
    ∧ (∀ t, x = some t → t ≤ waitUntilFinishedTimeout →
        (cancel w sid x).returnTime = t ∧ (cancel w sid x).timedOut = false)
    ∧ ((x = none ∨ ∃ t, x = some t ∧ waitUntilFinishedTimeout < t) →
        (cancel w sid x).returnTime = waitUntilFinishedTimeout
        ∧ (cancel w sid x).timedOut = true)
    ∧ (cancel w sid x).world.services = w.services := by
  cases x with
  | none => simp [cancel, hs, htrig, hlock, triggered_trigger_self]
  | some t =>
    by_cases hle : t ≤ waitUntilFinishedTimeout
    all_goals simp [cancel, hs, htrig, hlock, hle, triggered_trigger_self]
    all_goals omega

/-- Witness for `cancel_graceful`: the running service of `runningWorld`,
with `cleaned_up` resolving at time 3, inside the grace period. -/
theorem cancel_graceful_witness :
    (cancel runningWorld 1 (some 3)).error = none
    ∧ (cancel runningWorld 1 (some 3)).returnTime ≤ waitUntilFinishedTimeout :=
  ⟨(cancel_graceful runningWorld 1 runningSvc (some 3) rfl rfl rfl).1,
   (cancel_graceful runningWorld 1 runningSvc (some 3) rfl rfl rfl).2.2.1⟩

/-- Witness for `cleanup_fan_in` on `sharedListWorld`'s service 2 (child 99
resolving at time 103, own teardown at time 0). -/
theorem cleanup_fan_in_witness :
    0 ≤ cleanupSetTime sharedListWorld 2 (fun c => c + 4) 0
    ∧ cleanedUpAtTime sharedListWorld 2 (fun c => c + 4) 0 103 = true :=
  ⟨(cleanup_fan_in sharedListWorld 2 (fun c => c + 4) 0).1,
   ((cleanup_fan_in sharedListWorld 2 (fun c => c + 4) 0).2.2 103).mpr (by decide)⟩

/-- One step of the earliest-finisher scan: compare the head operation's
finish time `t` against the best of the rest. -/
def firstMinCons (t : Nat) (rest : Option (Nat × Nat)) : Nat × Nat :=
  match rest with
  | none => (0, t)
  | some (j, u) => if t ≤ u then (0, t) else (j + 1, u)

/-- Index and finish time of the earliest-finishing operation (least index on
ties), as observed by a FIRST_COMPLETED race over the operation list. -/
def firstMin : List Nat → Option (Nat × Nat)
  | [] => none
  | t :: ts => some (firstMinCons t (firstMin ts))

/-- Indices of operations still pending at `retTime` (their finish time is
strictly later); the race cancels exactly these before returning. -/
def pendingOps (ops : List Nat) (retTime : Nat) : List Nat :=
  (List.range ops.length).filter fun j => retTime < ops.getD j 0

/-- The three outcomes of the wait-with-cancellation race: some operation's
result, `OperationCancelled`, or `TimeoutError`. -/
inductive WaitOutcome : Type where
  | opResult (i : Nat)
  | cancelled
  | timedOut
deriving DecidableEq

/-- Observable result of one `wait_with_token` call: which of the three
outcomes occurred, when the call returned, which operations were cancelled
as still pending, and whether the deadline timer was cancelled. -/
structure WaitResult where
  outcome : WaitOutcome
  returnTime : Nat
  cancelledOps : List Nat
  timerCancelled : Bool

/-- Modelled from the spec: `wait_with_token` lives in the absent
`p2p/cancel_token.py`; spec section 4.2 says it "races an arbitrary list of
independent operations (0..N) against `token.wait()` and, if `timeout` is
given, a deadline timer", the first event deciding the single outcome, with
"all other still-pending operations and the timer … abandoned/cancelled
before returning".  `ops` lists each operation's finish time, `tokenFire` is
when the token chain fires (`none` = never), `timeout` the deadline.
Simultaneous events are resolved the way the implementation's final checks
order them: a fired token before an operation's result, completed work
before the deadline.  `none` means the call never returns (zero operations,
no timeout, token never fires). -/
def wait_with_token (ops : List Nat) (tokenFire timeout : Option Nat) :
    Option WaitResult :=
  match tokenFire, firstMin ops, timeout with
  | none, none, none => none
  | none, none, some u => some ⟨.timedOut, u, pendingOps ops u, false⟩
  | none, some (i, t), none => some ⟨.opResult i, t, pendingOps ops t, false⟩
  | none, some (i, t), some u =>
    if u < t then some ⟨.timedOut, u, pendingOps ops u, false⟩
    else some ⟨.opResult i, t, pendingOps ops t, true⟩
  | some tk, none, none => some ⟨.cancelled, tk, pendingOps ops tk, false⟩
  | some tk, none, some u =>
    if u < tk then some ⟨.timedOut, u, pendingOps ops u, false⟩
    else some ⟨.cancelled, tk, pendingOps ops tk, true⟩
  | some tk, some (i, t), none =>
    if tk ≤ t then some ⟨.cancelled, tk, pendingOps ops tk, false⟩
    else some ⟨.opResult i, t, pendingOps ops t, false⟩
  | some tk, some (i, t), some u =>
    if tk ≤ t then
      if u < tk then some ⟨.timedOut, u, pendingOps ops u, false⟩
      else some ⟨.cancelled, tk, pendingOps ops tk, true⟩
    else
      if u < t then some ⟨.timedOut, u, pendingOps ops u, false⟩
      else some ⟨.opResult i, t, pendingOps ops t, true⟩

/-- Earliest fire time of two optional one-shot signals: a chained token
fires as soon as either member fires. -/
def optMin : Option Nat → Option Nat → Option Nat
  | none, b => b
  | some a, none => some a
  | some a, some b => some (min a b)

/-- `BaseService.wait_first`: chains the given token (when one is passed)
with the service's own cancel token (`token.chain(self.cancel_token)`), then
delegates to `wait_with_token`.  `svcFire` and `tokFire` are the fire times
of the service token and of the passed token. -/
def wait_first (ops : List Nat) (svcFire tokFire timeout : Option Nat) :
    Option WaitResult :=
  wait_with_token ops (optMin tokFire svcFire) timeout

theorem firstMin_eq_none_iff (ops : List Nat) : firstMin ops = none ↔ ops = [] := by
  cases ops with
  | nil => simp [firstMin]
  | cons t ts => simp [firstMin]

theorem firstMin_spec (ops : List Nat) (i t : Nat) (h : firstMin ops = some (i, t)) :
    ∃ hi : i < ops.length, ops.get ⟨i, hi⟩ = t
      ∧ ∀ j (hj : j < ops.length), t ≤ ops.get ⟨j, hj⟩ := by
  induction ops generalizing i t with
  | nil => simp [firstMin] at h
  | cons a ts ih =>
    rw [show firstMin (a :: ts) = some (firstMinCons a (firstMin ts)) from rfl] at h
    rcases hm : firstMin ts with _ | ⟨j0, u⟩
    · have hts : ts = [] := (firstMin_eq_none_iff ts).mp hm
      rw [hm] at h
      simp only [firstMinCons, Option.some.injEq, Prod.mk.injEq] at h
      obtain ⟨rfl, rfl⟩ := h
      subst hts
      refine ⟨by simp, rfl, ?_⟩
      intro j hj
      have hj0 : j = 0 := by simpa using hj
      subst hj0
      exact Nat.le_refl _
    · rw [hm] at h
      simp only [firstMinCons] at h
      by_cases hle : a ≤ u
      · rw [if_pos hle] at h
        simp only [Option.some.injEq, Prod.mk.injEq] at h
        obtain ⟨rfl, rfl⟩ := h
        refine ⟨by simp, rfl, ?_⟩
        intro j hj
        cases j with
        | zero => exact Nat.le_refl _
        | succ k =>
          have hk : k < ts.length := by simpa using hj
          obtain ⟨hj0, hgetu, hallu⟩ := ih j0 u hm
          exact Nat.le_trans hle (hallu k hk)
      · rw [if_neg hle] at h
        simp only [Option.some.injEq, Prod.mk.injEq] at h
        obtain ⟨rfl, rfl⟩ := h
        obtain ⟨hj0, hget, hall⟩ := ih j0 u hm
        refine ⟨by simpa using Nat.succ_lt_succ hj0, by simpa using hget, ?_⟩
        intro j hj
        cases j with
        | zero => exact Nat.le_of_lt (Nat.lt_of_not_le hle)
        | succ k =>
          have hk : k < ts.length := by simpa using hj
          simpa using hall k hk

theorem mem_pendingOps (ops : List Nat) (retTime j : Nat) :
    j ∈ pendingOps ops retTime ↔ (j < ops.length ∧ retTime < ops.getD j 0) := by
  simp [pendingOps, List.mem_filter, List.mem_range]

theorem firstMin_some_ne_nil (ops : List Nat) (i0 t0 : Nat)
    (hm : firstMin ops = some (i0, t0)) : ops ≠ [] := by
  intro hnil
  rw [hnil] at hm
  exact Option.noConfusion hm

theorem all_ops_ge (ops : List Nat) (i0 t0 c : Nat)
    (hm : firstMin ops = some (i0, t0)) (hc : c ≤ t0) :
    ∀ j (hj : j < ops.length), c ≤ ops.get ⟨j, hj⟩ := by
  obtain ⟨_, _, hall⟩ := firstMin_spec ops i0 t0 hm
  exact fun j hj => Nat.le_trans hc (hall j hj)

theorem all_ops_gt (ops : List Nat) (i0 t0 c : Nat)
    (hm : firstMin ops = some (i0, t0)) (hc : c < t0) :
    ∀ j (hj : j < ops.length), c < ops.get ⟨j, hj⟩ := by
  obtain ⟨_, _, hall⟩ := firstMin_spec ops i0 t0 hm
  exact fun j hj => Nat.lt_of_lt_of_le hc (hall j hj)

theorem no_ops_clause (ops : List Nat) (hnil : firstMin ops = none) :
    ∀ (c : Nat) (j : Nat) (hj : j < ops.length), c ≤ ops.get ⟨j, hj⟩ := by
  intro c j hj
  rw [(firstMin_eq_none_iff ops).mp hnil] at hj
  exact absurd hj (by simp)

theorem no_ops_clause_lt (ops : List Nat) (hnil : firstMin ops = none) :
    ∀ (c : Nat) (j : Nat) (hj : j < ops.length), c < ops.get ⟨j, hj⟩ := by
  intro c j hj
  rw [(firstMin_eq_none_iff ops).mp hnil] at hj
  exact absurd hj (by simp)

theorem wait_with_token_isSome (ops : List Nat) (tokenFire timeout : Option Nat) :
    (wait_with_token ops tokenFire timeout).isSome = true
      ↔ (ops ≠ [] ∨ tokenFire ≠ none ∨ timeout ≠ none) := by
  rcases htk : tokenFire with _ | tk <;> rcases hm : firstMin ops with _ | ⟨i0, t0⟩ <;>
      rcases htm : timeout with _ | u0 <;>
    simp only [wait_with_token, hm, htk, htm]
  · simp [(firstMin_eq_none_iff ops).mp hm]
  · simp
  · simp [firstMin_some_ne_nil ops i0 t0 hm]
  · split <;> simp
  · simp
  · split <;> simp
  · split <;> simp
  · split <;> split <;> simp

theorem wait_with_token_race (ops : List Nat) (tokenFire timeout : Option Nat)
    (r : WaitResult) (hr : wait_with_token ops tokenFire timeout = some r) :
    (∀ i, r.outcome = .opResult i →
        ∃ hi : i < ops.length, r.returnTime = ops.get ⟨i, hi⟩
          ∧ (∀ j (hj : j < ops.length), r.returnTime ≤ ops.get ⟨j, hj⟩)
          ∧ (∀ c, tokenFire = some c → r.returnTime < c)
          ∧ (∀ u, timeout = some u → r.returnTime ≤ u))
    ∧ (r.outcome = .cancelled →
        ∃ c, tokenFire = some c ∧ r.returnTime = c
          ∧ (∀ j (hj : j < ops.length), c ≤ ops.get ⟨j, hj⟩)
          ∧ (∀ u, timeout = some u → c ≤ u))
    ∧ (r.outcome = .timedOut →
        ∃ u, timeout = some u ∧ r.returnTime = u
          ∧ (∀ j (hj : j < ops.length), u < ops.get ⟨j, hj⟩)
          ∧ (∀ c, tokenFire = some c → u < c))
    ∧ (∀ j, j ∈ r.cancelledOps ↔ (j < ops.length ∧ r.returnTime < ops.getD j 0))
    ∧ (r.timerCancelled = true ↔ (timeout.isSome = true ∧ r.outcome ≠ .timedOut))
    ∧ (ops = [] → ∀ i, r.outcome ≠ .opResult i) := by
  rcases htk : tokenFire with _ | tk <;> rcases hm : firstMin ops with _ | ⟨i0, t0⟩ <;>
      rcases htm : timeout with _ | u0 <;>
    (subst htk; subst htm; simp only [wait_with_token, hm] at hr)
  · exact Option.noConfusion hr
  · obtain rfl := Option.some.inj hr
    refine ⟨fun i hi => absurd hi (by simp), fun hc => absurd hc (by simp), ?_,
      fun j => mem_pendingOps ops _ j, by simp, by intro _ i; simp⟩
    intro _
    exact ⟨u0, rfl, rfl, no_ops_clause_lt ops hm u0, fun c hc => Option.noConfusion hc⟩
  · obtain rfl := Option.some.inj hr
    refine ⟨?_, fun hc => absurd hc (by simp), fun hc => absurd hc (by simp),
      fun j => mem_pendingOps ops _ j, by simp, ?_⟩
    · intro i hi
      cases hi
      obtain ⟨hlen, hget, hall⟩ := firstMin_spec ops i0 t0 hm
      exact ⟨hlen, hget.symm, hall, fun c hc => Option.noConfusion hc,
        fun u hu => Option.noConfusion hu⟩
    · intro hnil i
      rw [hnil] at hm
      exact absurd hm (by simp [firstMin])
  · split_ifs at hr with hcond
    · obtain rfl := Option.some.inj hr
      refine ⟨fun i hi => absurd hi (by simp), fun hc => absurd hc (by simp), ?_,
        fun j => mem_pendingOps ops _ j, by simp, by intro _ i; simp⟩
      intro _
      exact ⟨u0, rfl, rfl, all_ops_gt ops i0 t0 u0 hm hcond,
        fun c hc => Option.noConfusion hc⟩
    · obtain rfl := Option.some.inj hr
      refine ⟨?_, fun hc => absurd hc (by simp), fun hc => absurd hc (by simp),
        fun j => mem_pendingOps ops _ j, by simp, ?_⟩
      · intro i hi
        cases hi
        obtain ⟨hlen, hget, hall⟩ := firstMin_spec ops i0 t0 hm
        refine ⟨hlen, hget.symm, hall, fun c hc => Option.noConfusion hc, ?_⟩
        intro u hu
        have h := Option.some.inj hu
        show t0 ≤ u
        omega
      · intro hnil i
        rw [hnil] at hm
        exact absurd hm (by simp [firstMin])
  · obtain rfl := Option.some.inj hr
    refine ⟨fun i hi => absurd hi (by simp), ?_, fun hc => absurd hc (by simp),
      fun j => mem_pendingOps ops _ j, by simp, by intro _ i; simp⟩
    intro _
    exact ⟨tk, rfl, rfl, no_ops_clause ops hm tk, fun u hu => Option.noConfusion hu⟩
  · split_ifs at hr with hcond
    · obtain rfl := Option.some.inj hr
      refine ⟨fun i hi => absurd hi (by simp), fun hc => absurd hc (by simp), ?_,
        fun j => mem_pendingOps ops _ j, by simp, by intro _ i; simp⟩
      intro _
      refine ⟨u0, rfl, rfl, no_ops_clause_lt ops hm u0, ?_⟩
      intro c hc
      have h := Option.some.inj hc
      omega
    · obtain rfl := Option.some.inj hr
      refine ⟨fun i hi => absurd hi (by simp), ?_, fun hc => absurd hc (by simp),
        fun j => mem_pendingOps ops _ j, by simp, by intro _ i; simp⟩
      intro _
      refine ⟨tk, rfl, rfl, no_ops_clause ops hm tk, ?_⟩
      intro u hu
      have h := Option.some.inj hu
      omega
  · split_ifs at hr with hcond
    · obtain rfl := Option.some.inj hr
      refine ⟨fun i hi => absurd hi (by simp), ?_, fun hc => absurd hc (by simp),
        fun j => mem_pendingOps ops _ j, by simp, by intro _ i; simp⟩
      intro _
      exact ⟨tk, rfl, rfl, all_ops_ge ops i0 t0 tk hm hcond,
        fun u hu => Option.noConfusion hu⟩
    · obtain rfl := Option.some.inj hr
      refine ⟨?_, fun hc => absurd hc (by simp), fun hc => absurd hc (by simp),
        fun j => mem_pendingOps ops _ j, by simp, ?_⟩
      · intro i hi
        cases hi
        obtain ⟨hlen, hget, hall⟩ := firstMin_spec ops i0 t0 hm
        refine ⟨hlen, hget.symm, hall, ?_, fun u hu => Option.noConfusion hu⟩
        intro c hc
        have h := Option.some.inj hc
        show t0 < c
        omega
      · intro hnil i
        rw [hnil] at hm
        exact absurd hm (by simp [firstMin])
  · split_ifs at hr with h1 h2 h3
    · obtain rfl := Option.some.inj hr
      refine ⟨fun i hi => absurd hi (by simp), fun hc => absurd hc (by simp), ?_,
        fun j => mem_pendingOps ops _ j, by simp, by intro _ i; simp⟩
      intro _
      refine ⟨u0, rfl, rfl, all_ops_gt ops i0 t0 u0 hm (by omega), ?_⟩
      intro c hc
      have h := Option.some.inj hc
      omega
    · obtain rfl := Option.some.inj hr
      refine ⟨fun i hi => absurd hi (by simp), ?_, fun hc => absurd hc (by simp),
        fun j => mem_pendingOps ops _ j, by simp, by intro _ i; simp⟩
      intro _
      refine ⟨tk, rfl, rfl, all_ops_ge ops i0 t0 tk hm h1, ?_⟩
      intro u hu
      have h := Option.some.inj hu
      omega
    · obtain rfl := Option.some.inj hr
      refine ⟨fun i hi => absurd hi (by simp), fun hc => absurd hc (by simp), ?_,
        fun j => mem_pendingOps ops _ j, by simp, by intro _ i; simp⟩
      intro _
      refine ⟨u0, rfl, rfl, all_ops_gt ops i0 t0 u0 hm h3, ?_⟩
      intro c hc
      have h := Option.some.inj hc
      omega
    · obtain rfl := Option.some.inj hr
      refine ⟨?_, fun hc => absurd hc (by simp), fun hc => absurd hc (by simp),
        fun j => mem_pendingOps ops _ j, by simp, ?_⟩
      · intro i hi
        cases hi
        obtain ⟨hlen, hget, hall⟩ := firstMin_spec ops i0 t0 hm
        refine ⟨hlen, hget.symm, hall, ?_, ?_⟩
        · intro c hc
          have h := Option.some.inj hc
          show t0 < c
          omega
        · intro u hu
          have h := Option.some.inj hu
          show t0 ≤ u
          omega
      · intro hnil i
        rw [hnil] at hm
        exact absurd hm (by simp [firstMin])

/-- C8: race law.  For every operation list (including the empty one), token
fire times and optional timeout, `wait_first` — which races the operations
against the chain of the passed token and the service's own token
(`token.chain(self.cancel_token)`) and the timer — returns iff there is
anything to wait for, and then produces exactly one of the three mutually
exclusive outcomes (`WaitOutcome` has exactly these three constructors),
determined by the first event: an operation's result only if that operation
finished no later than every other operation, strictly before the chained
token fires and no later than the deadline; Cancelled only if the chain
fires first; Timeout only if the deadline elapses strictly first.  Every
operation still pending at the return time is in the cancelled set, the
deadline timer is cancelled whenever it did not itself win, and with zero
operations the outcome is never an operation result. -/
theorem wait_first_race (ops : List Nat) (svcFire tokFire timeout : Option Nat) :
    ((wait_first ops svcFire tokFire timeout).isSome = true
        ↔ (ops ≠ [] ∨ optMin tokFire svcFire ≠ none ∨ timeout ≠ none))
    ∧ ∀ r, wait_first ops svcFire tokFire timeout = some r →
        (∀ i, r.outcome = .opResult i →
            ∃ hi : i < ops.length, r.returnTime = ops.get ⟨i, hi⟩
              ∧ (∀ j (hj : j < ops.length), r.returnTime ≤ ops.get ⟨j, hj⟩)
              ∧ (∀ c, optMin tokFire svcFire = some c → r.returnTime < c)
              ∧ (∀ u, timeout = some u → r.returnTime ≤ u))
        ∧ (r.outcome = .cancelled →
            ∃ c, optMin tokFire svcFire = some c ∧ r.returnTime = c
              ∧ (∀ j (hj : j < ops.length), c ≤ ops.get ⟨j, hj⟩)
              ∧ (∀ u, timeout = some u → c ≤ u))
        ∧ (r.outcome = .timedOut →
            ∃ u, timeout = some u ∧ r.returnTime = u
              ∧ (∀ j (hj : j < ops.length), u < ops.get ⟨j, hj⟩)
              ∧ (∀ c, optMin tokFire svcFire = some c → u < c))
        ∧ (∀ j, j ∈ r.cancelledOps ↔ (j < ops.length ∧ r.returnTime < ops.getD j 0))
        ∧ (r.timerCancelled = true ↔ (timeout.isSome = true ∧ r.outcome ≠ .timedOut))
        ∧ (ops = [] → ∀ i, r.outcome ≠ .opResult i) :=
  ⟨wait_with_token_isSome ops (optMin tokFire svcFire) timeout,
   fun r hr => wait_with_token_race ops (optMin tokFire svcFire) timeout r hr⟩

/-- Witness for `wait_first_race`: operations finishing at times 3 and 5,
service token firing at 9, no passed token, deadline 7.  The first operation
wins at time 3, operation 1 (still pending) is cancelled, and the timer is
cancelled. -/
theorem wait_first_race_witness :
    (wait_first [3, 5] (some 9) none (some 7)).isSome = true
    ∧ wait_first [3, 5] (some 9) none (some 7)
        = some ⟨.opResult 0, 3, [1], true⟩ :=
  ⟨(wait_first_race [3, 5] (some 9) none (some 7)).1.mpr (Or.inl (by decide)), by rfl⟩

end P2P

namespace EVM

/-- Field modulus of the bn128 curve used by `py_ecc.optimized_bn128`. -/
def fieldModulus : Nat :=
  21888242871839275222246405745257275088696311157297823662689037894645226208583

/-- Addition in the bn128 base field FQ. -/
def fadd (a b : Nat) : Nat := (a + b) % fieldModulus

/-- Multiplication in FQ. -/
def fmul (a b : Nat) : Nat := (a * b) % fieldModulus

/-- Subtraction in FQ (operands need not be reduced). -/
def fsub (a b : Nat) : Nat :=
  (a % fieldModulus + (fieldModulus - b % fieldModulus)) % fieldModulus

/-- Binary modular exponentiation in FQ; `fuel` bounds the recursion depth
and is chosen ≥ the exponent's bit length wherever it is applied. -/
def fpowAux : Nat → Nat → Nat → Nat
  | 0, _, _ => 1 % fieldModulus
  | fuel + 1, a, n =>
    if n = 0 then 1 % fieldModulus
    else
      let r := fpowAux fuel (fmul a a) (n / 2)
      if n % 2 = 1 then fmul r a else r

/-- Power in FQ (fuel 256 covers any exponent below 2^256). -/
def fpow (a n : Nat) : Nat := fpowAux 256 a n

/-- Multiplicative inverse in FQ via Fermat, with `finv 0 = 0` exactly as
`py_ecc`'s `inv` returns 0 on 0 — which is what makes `normalize` of the
point at infinity come out as (0, 0). -/
def finv (a : Nat) : Nat := fpow a (fieldModulus - 2)

/-- `py_ecc.optimized_bn128.is_on_curve` for a projective point (x, y, z)
with curve coefficient b = 3: checks y²·z − x³ = b·z³ in FQ. -/
def is_on_curve (x y z : Nat) : Bool :=
  fsub (fmul (fmul y y) z) (fmul x (fmul x x)) == fmul 3 (fmul z (fmul z z))

/-- `py_ecc.optimized_bn128.double` on projective coordinates. -/
def double (p : Nat × Nat × Nat) : Nat × Nat × Nat :=
  let x := p.1
  let y := p.2.1
  let z := p.2.2
  let w := fmul 3 (fmul x x)
  let s := fmul y z
  let b := fmul x (fmul y s)
  let h := fsub (fmul w w) (fmul 8 b)
  let s2 := fmul s s
  (fmul 2 (fmul h s),
   fsub (fmul w (fsub (fmul 4 b) h)) (fmul 8 (fmul (fmul y y) s2)),
   fmul 8 (fmul s s2))

/-- `py_ecc.optimized_bn128.add` on projective coordinates. -/
def add (p1 p2 : Nat × Nat × Nat) : Nat × Nat × Nat :=
  if p2.2.2 = 0 then p1
  else if p1.2.2 = 0 then p2
  else
    let x1 := p1.1
    let y1 := p1.2.1
    let z1 := p1.2.2
    let x2 := p2.1
    let y2 := p2.2.1
    let z2 := p2.2.2
    let u1 := fmul y2 z1
    let u2 := fmul y1 z2
    let v1 := fmul x2 z1
    let v2 := fmul x1 z2
    if v1 = v2 ∧ u1 = u2 then double p1
    else if v1 = v2 then (1, 1, 0)
    else
      let u := fsub u1 u2
      let v := fsub v1 v2
      let vsq := fmul v v
      let vsqv2 := fmul vsq v2
      let vcb := fmul v vsq
      let w := fmul z1 z2
      let a := fsub (fsub (fmul (fmul u u) w) vcb) (fmul 2 vsqv2)
      (fmul v a,
       fsub (fmul u (fsub vsqv2 a)) (fmul vcb u2),
       fmul vcb w)

/-- `py_ecc.optimized_bn128.multiply`: double-and-add scalar
multiplication; `fuel` bounds the recursion depth and is chosen ≥ the
scalar's bit length. -/
def multiplyAux : Nat → Nat × Nat × Nat → Nat → Nat × Nat × Nat
  | 0, pt, _ => pt
  | fuel + 1, pt, n =>
    if n = 0 then (1, 1, 0)
    else if n = 1 then pt
    else if n % 2 = 0 then double (multiplyAux fuel pt (n / 2))
    else add (double (multiplyAux fuel pt (n / 2))) pt

/-- Scalar multiplication (fuel 257 covers any 32-byte scalar). -/
def multiply (pt : Nat × Nat × Nat) (n : Nat) : Nat × Nat × Nat :=
  multiplyAux 257 pt n

/-- `py_ecc.optimized_bn128.normalize`: divide both coordinates by z (with
`finv 0 = 0`, the point at infinity normalizes to (0, 0)). -/
def normalize (pt : Nat × Nat × Nat) : Nat × Nat :=
  (fmul pt.1 (finv pt.2.2), fmul pt.2.1 (finv pt.2.2))

/-- `evm.utils.bn128.validate_point` (absent from src/): raises
ValidationError (`none`) on a coordinate ≥ the field modulus, maps (0, 0)
to the projective point at infinity (1, 1, 0), and otherwise accepts
(x, y, 1) exactly when it lies on the curve. -/
def validate_point (x y : Nat) : Option (Nat × Nat × Nat) :=
  if fieldModulus ≤ x ∨ fieldModulus ≤ y then none
  else if x = 0 ∧ y = 0 then some (1, 1, 0)
  else if is_on_curve x y 1 then some (x, y, 1) else none

/-- `evm.utils.padding.pad32`: left-pad a byte string to 32 bytes with
zeros. -/
def pad32 (bs : List Nat) : List Nat := List.replicate (32 - bs.length) 0 ++ bs

/-- `evm.utils.padding.pad32r`: right-pad a byte string to 32 bytes with
zeros. -/
def pad32r (bs : List Nat) : List Nat := bs ++ List.replicate (32 - bs.length) 0

/-- `evm.utils.numeric.big_endian_to_int`. -/
def big_endian_to_int (bs : List Nat) : Nat :=
  bs.foldl (fun acc b => acc * 256 + b) 0

/-- Minimal big-endian byte expansion; `fuel` bounds the recursion depth. -/
def int_to_big_endian_aux : Nat → Nat → List Nat
  | 0, _ => []
  | fuel + 1, n =>
    if n = 0 then [] else int_to_big_endian_aux fuel (n / 256) ++ [n % 256]

/-- `evm.utils.numeric.int_to_big_endian`: minimal big-endian byte string
(a single zero byte for 0; fuel 33 covers any value below 2^264). -/
def int_to_big_endian (n : Nat) : List Nat :=
  if n = 0 then [0] else int_to_big_endian_aux 33 n

/-- The slice of py-evm's computation object that `precompile_ecmul`
touches: the message data, the output, and the gas meter — modelled as a
running total of consumed gas, per the spec's "mutable output/fee-counter
context". -/
structure Computation where
  data : List Nat
  output : List Nat
  gasConsumed : Nat

/-- `evm.constants.GAS_ECMUL` (absent from src/): the fixed ECMUL gas
amount. -/
def GAS_ECMUL : Nat := 40000

/-- The `_ecmull` helper of `evm/precompiles/ecmul.py`: reads the input as
three 32-byte words right-zero-padded (x, y, m — everything beyond offset
96 unread), validates the point, and returns the normalized product;
`none` is the ValidationError path. -/
def ecmull (data : List Nat) : Option (Nat × Nat) :=
  let x := big_endian_to_int (pad32r (data.take 32))
  let y := big_endian_to_int (pad32r ((data.drop 32).take 32))
  let m := big_endian_to_int (pad32r ((data.drop 64).take 32))
  match validate_point x y with
  | none => none
  | some p => some (normalize (multiply p m))

/-- `precompile_ecmul` from `evm/precompiles/ecmul.py`: consumes GAS_ECMUL
first, swallows ValidationError (returning the computation with its output
untouched), and otherwise writes the 64-byte concatenation of the 32-byte
big-endian x and y of the result point. -/
def precompile_ecmul (c : Computation) : Computation :=
  let c1 : Computation := { c with gasConsumed := c.gasConsumed + GAS_ECMUL }
  match ecmull c.data with
  | none => c1
  | some xy =>
    { c1 with output := pad32 (int_to_big_endian xy.1) ++ pad32 (int_to_big_endian xy.2) }

theorem ecmull_take_96 (data : List Nat) : ecmull (data.take 96) = ecmull data := by
  unfold ecmull
  rw [List.take_take, List.drop_take, List.take_take, List.drop_take, List.take_take]
  norm_num

/-- C10: `precompile_ecmul` always consumes the fixed ECMUL gas amount
first and never touches the message data; when point validation fails with
a ValidationError the error is swallowed and the output is left unchanged
(gas still consumed); otherwise the output becomes the 64-byte
concatenation of the 32-byte big-endian coordinates of the normalized
product point, where the input is read as three 32-byte words
right-zero-padded and bytes beyond offset 96 are ignored. -/
theorem precompile_ecmul_spec (c : Computation) :
    (precompile_ecmul c).gasConsumed = c.gasConsumed + GAS_ECMUL
    ∧ (precompile_ecmul c).data = c.data
    ∧ ((ecmull c.data).isNone = true → (precompile_ecmul c).output = c.output)
    ∧ (∀ x y, ecmull c.data = some (x, y) →
        (precompile_ecmul c).output
          = pad32 (int_to_big_endian x) ++ pad32 (int_to_big_endian y))
    ∧ ecmull (c.data.take 96) = ecmull c.data := by
  refine ⟨?_, ?_, ?_, ?_, ecmull_take_96 c.data⟩
  · cases h : ecmull c.data <;> simp [precompile_ecmul, h]
  · cases h : ecmull c.data <;> simp [precompile_ecmul, h]
  · cases h : ecmull c.data <;> simp [precompile_ecmul, h]
  · intro x y hxy
    simp [precompile_ecmul, hxy]

set_option maxRecDepth 8000 in
/-- Witness for `precompile_ecmul_spec`: empty input data, so x = y = m = 0,
the point at infinity is multiplied by 0 and normalizes to (0, 0), the
output is 64 zero bytes and the gas is consumed. -/
theorem precompile_ecmul_spec_witness :
    (precompile_ecmul ⟨[], [], 0⟩).gasConsumed = 0 + GAS_ECMUL
    ∧ (precompile_ecmul ⟨[], [], 0⟩).output = List.replicate 64 0 :=
  ⟨(precompile_ecmul_spec ⟨[], [], 0⟩).1, by
    have h := (precompile_ecmul_spec ⟨[], [], 0⟩).2.2.2.1 0 0 (by rfl)
    rw [h]
    rfl⟩

end EVM
